import Mathlib

/-!
Verification development for the YOLOv8 loss / label-assignment core
(`src/models/detectors/yolov8/loss.py` of RT-ODLab).

Tensors are embedded as Lean lists over `ℚ` (exact rational arithmetic in
place of floating point).  Elementwise transcendental primitives
(`F.binary_cross_entropy_with_logits`, `F.cross_entropy`, CIoU, sigmoid) are
abstracted as function parameters, since the claims under study concern how
their values are aggregated, masked and normalized, not their analytic form.
Components referenced by `loss.py` but whose source is not part of the
repository snapshot (`utils/box_ops.py`, `utils/distributed_utils.py`,
`.matcher.TaskAlignedAssigner`) are modelled from the spec and marked as such.
-/

/-- Axis-aligned box with absolute corner coordinates x1, y1, x2, y2. -/
structure Box where
  x1 : ℚ
  y1 : ℚ
  x2 : ℚ
  y2 : ℚ
deriving DecidableEq

/-- The all-zero box used for background anchors. -/
def zeroBox : Box := ⟨0, 0, 0, 0⟩

/-- Divide every coordinate of a box by a scalar (tensor `box / stride`). -/
def divBox (b : Box) (s : ℚ) : Box := ⟨b.x1 / s, b.y1 / s, b.x2 / s, b.y2 / s⟩

/-- Abstract elementwise numeric primitives used by the loss code.
`bce` models `F.binary_cross_entropy_with_logits` on one (logit, target)
pair; `ce` models `F.cross_entropy` of one logit row against a class index
(index kept as `ℤ` because the source casts continuous targets with
`.to(torch.long)`); `ciou` models `bbox_iou(..., CIoU=True)` on one pair of
boxes; `sigmoid` models elementwise `torch.sigmoid`. -/
structure NumericOps where
  bce : ℚ → ℚ → ℚ
  ce : List ℚ → ℤ → ℚ
  ciou : Box → Box → ℚ
  sigmoid : ℚ → ℚ

/-- Boolean-mask selection, the embedding of tensor indexing `xs[mask]`. -/
def maskSelect {α : Type} (mask : List Bool) (xs : List α) : List α :=
  ((mask.zip xs).filter (fun p => p.1)).map (fun p => p.2)

/-- Embedding of `torch.clamp(x, lo, hi)`. -/
def clampQ (x lo hi : ℚ) : ℚ := min (max x lo) hi

/-- Embedding of the cast `.to(torch.long)`: truncation toward zero. -/
def truncQ (q : ℚ) : ℤ := if q < 0 then ⌈q⌉ else ⌊q⌋

/-- Modelled from the spec: `bbox2dist(anchor_points, boxes, max_bin)` from
`utils/box_ops.py`, which is not part of the repository snapshot.  Per spec
section 4.1 it converts an absolute box and anchor point into the four
non-negative distances (left, top, right, bottom) from the anchor to each box
edge, clamped to `[0, max_bin - epsilon]` (epsilon = 1/100). -/
def bbox2dist (anchor : ℚ × ℚ) (box : Box) (max_bin : ℚ) : List ℚ :=
  [clampQ (anchor.1 - box.x1) 0 (max_bin - 1/100),
   clampQ (anchor.2 - box.y1) 0 (max_bin - 1/100),
   clampQ (box.x2 - anchor.1) 0 (max_bin - 1/100),
   clampQ (box.y2 - anchor.2) 0 (max_bin - 1/100)]

/-- Left discrete bin of a continuous DFL target (`gt_left = t.to(long)`,
loss.py lines 52 and 228). -/
def dflLeftBin (t : ℚ) : ℤ := truncQ t

/-- Right discrete bin (`gt_right = gt_left + 1`, loss.py lines 53 and 229). -/
def dflRightBin (t : ℚ) : ℤ := dflLeftBin t + 1

/-- Interpolation weight of the left bin (`weight_left = gt_right - t`,
loss.py lines 55 and 230). -/
def dflWeightLeft (t : ℚ) : ℚ := ((dflRightBin t : ℤ) : ℚ) - t

/-- Interpolation weight of the right bin (`weight_right = 1 - weight_left`,
loss.py lines 56 and 231). -/
def dflWeightRight (t : ℚ) : ℚ := 1 - dflWeightLeft t

/-- Row `j` of `pred_reg.view(-1, nbins)`: the j-th width-`nbins` chunk of a
flattened per-anchor regression row. -/
def chunkRow (nbins : ℕ) (row : List ℚ) (j : ℕ) : List ℚ :=
  (row.drop (j * nbins)).take nbins

/-- Shared per-side DFL terms: for each continuous target `ts[j]`, the
left-bin cross-entropy times its weight plus the right-bin cross-entropy
times its weight, taken on chunk `j` of the regression row (loss.py lines
58-67 and 232-241). -/
def dflRowTerms (ops : NumericOps) (nbins : ℕ) (reg_row : List ℚ) (ts : List ℚ) : List ℚ :=
  (List.range ts.length).map (fun j =>
    ops.ce (chunkRow nbins reg_row j) (dflLeftBin (ts.getD j 0)) * dflWeightLeft (ts.getD j 0)
    + ops.ce (chunkRow nbins reg_row j) (dflRightBin (ts.getD j 0)) * dflWeightRight (ts.getD j 0))

/-- Construction-time configuration of `Criterion` (loss.py lines 12-29). -/
structure CriterionCfg where
  num_classes : ℕ
  reg_max : ℕ
  loss_cls_weight : ℚ
  loss_box_weight : ℚ
  loss_dfl_weight : ℚ

/-- Embedding of `Criterion.use_dfl = cfg['reg_max'] > 1` (loss.py line 18). -/
def use_dfl (cfg : CriterionCfg) : Bool := decide (1 < cfg.reg_max)

/-- Embedding of `Criterion.loss_classes` (loss.py lines 31-35): elementwise
binary cross-entropy between logits and soft targets, no reduction. -/
def loss_classes (ops : NumericOps) (pred_cls gt_score : List (List ℚ)) : List (List ℚ) :=
  List.zipWith (List.zipWith ops.bce) pred_cls gt_score

/-- Embedding of `Criterion.loss_bboxes` (loss.py lines 37-42):
`(1 - CIoU) * bbox_weight` per row. -/
def loss_bboxes (ops : NumericOps) (pred_box gt_box : List Box) (bbox_weight : List ℚ) : List ℚ :=
  List.zipWith (fun pq w => (1 - ops.ciou pq.1 pq.2) * w) (pred_box.zip gt_box) bbox_weight

/-- One row of `Criterion.loss_dfl` before the `bbox_weight` factor
(loss.py lines 44-69): rescale box and anchor by the stride, form the four
continuous bin distances with `bbox2dist(·, ·, reg_max - 1)`, take the
two-bin weighted cross-entropy per side and average over the four sides
(`.mean(-1)`). -/
def loss_dfl_row (ops : NumericOps) (cfg : CriterionCfg) (reg_row : List ℚ) (b : Box)
    (a : ℚ × ℚ) (s : ℚ) : ℚ :=
  let ts := bbox2dist (a.1 / s, a.2 / s) (divBox b s) ((cfg.reg_max : ℚ) - 1)
  (dflRowTerms ops cfg.reg_max reg_row ts).sum / (ts.length : ℚ)

/-- Embedding of `Criterion.loss_dfl` (loss.py lines 44-74), including the
final `* bbox_weight`. -/
def loss_dfl (ops : NumericOps) (cfg : CriterionCfg) (pred_reg : List (List ℚ))
    (gt_box : List Box) (anchor : List (ℚ × ℚ)) (stride : List ℚ)
    (bbox_weight : List ℚ) : List ℚ :=
  List.zipWith (fun pbas w => loss_dfl_row ops cfg pbas.1 pbas.2.1 pbas.2.2.1 pbas.2.2.2 * w)
    (pred_reg.zip (gt_box.zip (anchor.zip stride))) bbox_weight

/-- One element of the `targets` list handed to `Criterion.__call__`. -/
structure ImageTarget where
  labels : List ℕ
  boxes : List Box
  orig_size : ℚ × ℚ
deriving DecidableEq

instance : Inhabited ImageTarget := ⟨⟨[], [], (0, 0)⟩⟩

/-- The per-anchor outputs of the task-aligned matcher for one image:
target boxes `[M]`, soft target class scores `[M, C]`, foreground mask `[M]`
(the singleton leading batch dimension of the source is dropped). -/
structure MatcherOut where
  gt_box : List Box
  gt_score : List (List ℚ)
  fg_mask : List Bool
deriving DecidableEq

/-- Abstract interface of `TaskAlignedAssigner.__call__` as used by
`Criterion.__call__`: sigmoid class scores, decoded boxes, anchor points,
ground-truth labels and boxes for one image. -/
abbrev Matcher : Type :=
  List (List ℚ) → List Box → List (ℚ × ℚ) → List ℕ → List Box → MatcherOut

/-- The `outputs` mapping handed to `Criterion.__call__`:
per-scale lists of per-image tensors, plus per-scale anchor points and
stride tensors (loss.py lines 77-86). -/
structure CriterionOutputs where
  pred_cls : List (List (List (List ℚ)))
  pred_reg : List (List (List (List ℚ)))
  pred_box : List (List (List Box))
  anchors : List (List (ℚ × ℚ))
  stride_tensor : List (List ℚ)

/-- Embedding of `torch.cat(scales, dim=1)` on a list of `[B, M_s, ·]`
tensors: per image, join the per-scale anchor rows. -/
def catDim1 {α : Type} (scales : List (List (List α))) (bs : ℕ) : List (List α) :=
  (List.range bs).map (fun b => (scales.map (fun s => s.getD b [])).flatten)

/-- Embedding of `bs = outputs['pred_cls'][0].shape[0]` (loss.py line 88). -/
def batchSize (o : CriterionOutputs) : ℕ := (o.pred_cls.getD 0 []).length

/-- Embedding of `anchors = torch.cat(outputs['anchors'], dim=0)`. -/
def anchorsCat (o : CriterionOutputs) : List (ℚ × ℚ) := o.anchors.flatten

/-- Embedding of `num_anchors = anchors.shape[0]` (loss.py line 93). -/
def numAnchors (o : CriterionOutputs) : ℕ := (anchorsCat o).length

/-- Embedding of `cls_preds = torch.cat(outputs['pred_cls'], dim=1)`. -/
def clsPreds (o : CriterionOutputs) : List (List (List ℚ)) :=
  catDim1 o.pred_cls (batchSize o)

/-- Embedding of `reg_preds = torch.cat(outputs['pred_reg'], dim=1)`. -/
def regPreds (o : CriterionOutputs) : List (List (List ℚ)) :=
  catDim1 o.pred_reg (batchSize o)

/-- Embedding of `box_preds = torch.cat(outputs['pred_box'], dim=1)`. -/
def boxPreds (o : CriterionOutputs) : List (List Box) :=
  catDim1 o.pred_box (batchSize o)

/-- Embedding of `strides = torch.cat(outputs['stride_tensor'], dim=0)`. -/
def stridesCat (o : CriterionOutputs) : List ℚ := o.stride_tensor.flatten

/-- All coordinates of a list of boxes, for `tgt_boxs.max()`. -/
def coordList (bs : List Box) : List ℚ :=
  (bs.map (fun b => [b.x1, b.y1, b.x2, b.y2])).flatten

/-- Maximum of a rational list (`tensor.max()`), `none` on the empty list. -/
def listMax : List ℚ → Option ℚ
  | [] => none
  | x :: xs => some (xs.foldl max x)

/-- Embedding of the per-image body of the assignment loop in
`Criterion.__call__` (loss.py lines 104-129): short-circuit to an
all-background result when the image has no labels or its box-coordinate
maximum is exactly zero, otherwise invoke the matcher on the detached,
sigmoid-activated class predictions and the detached decoded boxes. -/
def assignImage (ops : NumericOps) (C M : ℕ) (matcher : Matcher)
    (anchors : List (ℚ × ℚ)) (cls_b : List (List ℚ)) (box_b : List Box)
    (tgt : ImageTarget) : MatcherOut :=
  if tgt.labels.length = 0 ∨ listMax (coordList tgt.boxes) = some 0 then
    { gt_box := List.replicate M zeroBox
      gt_score := List.replicate M (List.replicate C 0)
      fg_mask := List.replicate M false }
  else
    matcher (cls_b.map (fun r => r.map ops.sigmoid)) box_b anchors tgt.labels tgt.boxes

/-- Embedding of the whole assignment loop `for batch_idx in range(bs)`
(loss.py lines 100-132), producing per-image matcher outputs in batch
index order. -/
def assignResults (ops : NumericOps) (cfg : CriterionCfg) (matcher : Matcher)
    (o : CriterionOutputs) (targets : List ImageTarget) : List MatcherOut :=
  (List.range (batchSize o)).map (fun b =>
    assignImage ops cfg.num_classes (numAnchors o) matcher (anchorsCat o)
      ((clsPreds o).getD b []) ((boxPreds o).getD b []) (targets.getD b default))

/-- Embedding of `fg_masks = torch.cat(fg_masks, 0).view(-1)` (line 135). -/
def fgMasksFlat (ops : NumericOps) (cfg : CriterionCfg) (matcher : Matcher)
    (o : CriterionOutputs) (targets : List ImageTarget) : List Bool :=
  ((assignResults ops cfg matcher o targets).map MatcherOut.fg_mask).flatten

/-- Embedding of `gt_score_targets = torch.cat(...).view(-1, C)` (line 136). -/
def gtScoreFlat (ops : NumericOps) (cfg : CriterionCfg) (matcher : Matcher)
    (o : CriterionOutputs) (targets : List ImageTarget) : List (List ℚ) :=
  ((assignResults ops cfg matcher o targets).map MatcherOut.gt_score).flatten

/-- Embedding of `gt_bbox_targets = torch.cat(...).view(-1, 4)` (line 137). -/
def gtBoxFlat (ops : NumericOps) (cfg : CriterionCfg) (matcher : Matcher)
    (o : CriterionOutputs) (targets : List ImageTarget) : List Box :=
  ((assignResults ops cfg matcher o targets).map MatcherOut.gt_box).flatten

/-- Embedding of `num_fgs = gt_score_targets.sum()` (loss.py line 138):
the local positive-target mass before any distributed reduction. -/
def numFgsLocal (ops : NumericOps) (cfg : CriterionCfg) (matcher : Matcher)
    (o : CriterionOutputs) (targets : List ImageTarget) : ℚ :=
  ((gtScoreFlat ops cfg matcher o targets).map List.sum).sum

/-- Modelled from the spec: the distributed context provided by
`utils/distributed_utils.py`, which is not part of the repository snapshot.
`active` models `is_dist_avail_and_initialized()`; `others` holds the values
the remaining workers contribute to the collective sum; `world_size` is the
number of workers reported when distributed training is initialized
(`get_world_size()` reports 1 otherwise). -/
structure DistCtx where
  active : Bool
  others : List ℚ
  world_size : ℕ

/-- Modelled from the spec: `get_world_size()`, 1 when not distributed. -/
def get_world_size (ctx : DistCtx) : ℕ :=
  if ctx.active then ctx.world_size else 1

/-- Modelled from the spec: `torch.distributed.all_reduce` on a scalar sums
the local value with every other worker's contribution. -/
def allReduceSum (ctx : DistCtx) (x : ℚ) : ℚ := x + ctx.others.sum

/-- Embedding of loss.py lines 141-143: all-reduce the local mass when
distributed training is active, divide by the world size, floor at 1. -/
def normalizerOf (ctx : DistCtx) (x : ℚ) : ℚ :=
  max ((if ctx.active then allReduceSum ctx x else x) / (get_world_size ctx : ℚ)) 1

/-- Embedding of `cls_preds.view(-1, num_classes)` (loss.py line 146). -/
def clsFlat (o : CriterionOutputs) : List (List ℚ) := (clsPreds o).flatten

/-- Embedding of `box_preds.view(-1, 4)` (loss.py line 151). -/
def boxFlatAll (o : CriterionOutputs) : List Box := (boxPreds o).flatten

/-- Embedding of `reg_preds.view(-1, 4*reg_max)` (loss.py line 165). -/
def regFlat (o : CriterionOutputs) : List (List ℚ) := (regPreds o).flatten

/-- Embedding of loss.py lines 159-160: the concatenated anchors repeated
once per image and flattened to `[B*M, 2]`. -/
def anchorsRep (o : CriterionOutputs) : List (ℚ × ℚ) :=
  (List.replicate (batchSize o) (anchorsCat o)).flatten

/-- Embedding of loss.py lines 162-163: the concatenated stride tensor
repeated once per image and flattened to `[B*M, 1]`. -/
def stridesRep (o : CriterionOutputs) : List ℚ :=
  (List.replicate (batchSize o) (stridesCat o)).flatten

/-- Embedding of loss.py lines 146-148: summed elementwise BCE over all
anchors divided by the normalizer. -/
def clsLossVal (ops : NumericOps) (cfg : CriterionCfg) (matcher : Matcher)
    (o : CriterionOutputs) (targets : List ImageTarget) (ctx : DistCtx) : ℚ :=
  ((loss_classes ops (clsFlat o) (gtScoreFlat ops cfg matcher o targets)).map List.sum).sum
    / normalizerOf ctx (numFgsLocal ops cfg matcher o targets)

/-- Embedding of `bbox_weight = gt_score_targets[fg_masks].sum(-1)`
(loss.py line 153). -/
def bboxWeightPos (ops : NumericOps) (cfg : CriterionCfg) (matcher : Matcher)
    (o : CriterionOutputs) (targets : List ImageTarget) : List ℚ :=
  (maskSelect (fgMasksFlat ops cfg matcher o targets)
    (gtScoreFlat ops cfg matcher o targets)).map List.sum

/-- Embedding of `box_targets_pos = gt_bbox_targets.view(-1,4)[fg_masks]`
(loss.py line 152). -/
def boxTargetsPos (ops : NumericOps) (cfg : CriterionCfg) (matcher : Matcher)
    (o : CriterionOutputs) (targets : List ImageTarget) : List Box :=
  maskSelect (fgMasksFlat ops cfg matcher o targets) (gtBoxFlat ops cfg matcher o targets)

/-- Embedding of loss.py lines 150-155: the summed foreground CIoU loss
divided by the normalizer. -/
def boxLossVal (ops : NumericOps) (cfg : CriterionCfg) (matcher : Matcher)
    (o : CriterionOutputs) (targets : List ImageTarget) (ctx : DistCtx) : ℚ :=
  (loss_bboxes ops
      (maskSelect (fgMasksFlat ops cfg matcher o targets) (boxFlatAll o))
      (boxTargetsPos ops cfg matcher o targets)
      (bboxWeightPos ops cfg matcher o targets)).sum
    / normalizerOf ctx (numFgsLocal ops cfg matcher o targets)

/-- Embedding of loss.py lines 157-170: the summed foreground DFL divided by
the normalizer (computed by `__call__` whether or not `use_dfl` holds). -/
def dflLossVal (ops : NumericOps) (cfg : CriterionCfg) (matcher : Matcher)
    (o : CriterionOutputs) (targets : List ImageTarget) (ctx : DistCtx) : ℚ :=
  (loss_dfl ops cfg
      (maskSelect (fgMasksFlat ops cfg matcher o targets) (regFlat o))
      (boxTargetsPos ops cfg matcher o targets)
      (maskSelect (fgMasksFlat ops cfg matcher o targets) (anchorsRep o))
      (maskSelect (fgMasksFlat ops cfg matcher o targets) (stridesRep o))
      (bboxWeightPos ops cfg matcher o targets)).sum
    / normalizerOf ctx (numFgsLocal ops cfg matcher o targets)

/-- The loss dictionary returned by `Criterion.__call__`; the
distribution-focal entry is optional because its key is present only when
`use_dfl` holds (loss.py lines 172-189). -/
structure LossDict where
  loss_cls : ℚ
  loss_box : ℚ
  loss_dfl : Option ℚ
  losses : ℚ
deriving DecidableEq

/-- Embedding of `Criterion.__call__` (loss.py lines 76-189). -/
def criterionCall (ops : NumericOps) (cfg : CriterionCfg) (matcher : Matcher)
    (o : CriterionOutputs) (targets : List ImageTarget) (ctx : DistCtx) : LossDict :=
  let lc := clsLossVal ops cfg matcher o targets ctx
  let lb := boxLossVal ops cfg matcher o targets ctx
  let ld := dflLossVal ops cfg matcher o targets ctx
  if use_dfl cfg then
    { loss_cls := lc, loss_box := lb, loss_dfl := some ld,
      losses := lc * cfg.loss_cls_weight + lb * cfg.loss_box_weight + ld * cfg.loss_dfl_weight }
  else
    { loss_cls := lc, loss_box := lb, loss_dfl := none,
      losses := lc * cfg.loss_cls_weight + lb * cfg.loss_box_weight }

/-- Construction-time configuration of `RegressionLoss` (loss.py 220-224). -/
structure RegLossCfg where
  num_classes : ℕ
  reg_max : ℕ
  use_dfl : Bool

/-- Embedding of `RegressionLoss.df_loss` (loss.py lines 227-245); the bin
count here is `reg_max + 1` and the mean is over the last target dimension. -/
def df_loss (ops : NumericOps) (reg_max : ℕ) (pred_regs target : List (List ℚ)) : List ℚ :=
  List.zipWith (fun row trow => (dflRowTerms ops (reg_max + 1) row trow).sum / (trow.length : ℚ))
    pred_regs target

/-- Embedding of `RegressionLoss.forward` (loss.py lines 248-289). -/
def RegressionLoss_forward (ops : NumericOps) (cfg : RegLossCfg)
    (pred_regs : List (List ℚ)) (pred_boxs : List Box) (anchors : List (ℚ × ℚ))
    (gt_boxs : List Box) (bbox_weight : List ℚ) (fg_masks : List Bool)
    (strides : List ℚ) : List ℚ × List ℚ :=
  let num_pos := fg_masks.count true
  if 0 < num_pos then
    let pred_boxs_pos := maskSelect fg_masks pred_boxs
    let gt_boxs_pos := maskSelect fg_masks gt_boxs
    let ious := List.zipWith (fun p q => ops.ciou p q) pred_boxs_pos gt_boxs_pos
    let loss_iou := List.zipWith (fun i w => (1 - i) * w) ious bbox_weight
    let loss_dfl :=
      if cfg.use_dfl then
        let pred_regs_pos := maskSelect fg_masks pred_regs
        let gt_ltrb_s := List.zipWith
          (fun ab s => bbox2dist (ab.1.1 / s, ab.1.2 / s) (divBox ab.2 s) (cfg.reg_max : ℚ))
          (anchors.zip gt_boxs) strides
        let gt_ltrb_s_pos := maskSelect fg_masks gt_ltrb_s
        List.zipWith (fun l w => l * w) (df_loss ops cfg.reg_max pred_regs_pos gt_ltrb_s_pos)
          bbox_weight
      else
        [(pred_regs.map List.sum).sum * 0]
    (loss_iou, loss_dfl)
  else
    ([(pred_regs.map List.sum).sum * 0], [(pred_regs.map List.sum).sum * 0])

instance : Inhabited MatcherOut := ⟨⟨[], [], []⟩⟩

/-- Modelled from the spec (section 4.2 step 1): the center-prior candidate
test of the Task-Aligned Assigner, whose source `.matcher` is not part of
the repository snapshot — an anchor point is a valid candidate for a
ground-truth box only if it falls strictly inside that box. -/
def insideBox (p : ℚ × ℚ) (b : Box) : Bool :=
  decide (b.x1 < p.1 ∧ p.1 < b.x2 ∧ b.y1 < p.2 ∧ p.2 < b.y2)

/-- Index of the first occurrence of the maximum of a rational list
(0 on the empty list); the deterministic lowest-index tie-break of spec
section 4.2 steps 3-4. -/
def argmaxFrom : List ℚ → ℕ
  | [] => 0
  | x :: xs =>
    if xs = [] then 0
    else if x < xs.getD (argmaxFrom xs) 0 then argmaxFrom xs + 1 else 0

/-- Modelled from the spec (section 4.2 step 3): indices of up to `k`
largest entries of a row, highest first, first occurrence winning ties;
entries below zero are the non-candidate sentinel and are never selected. -/
def topkIdx : ℕ → List ℚ → List ℕ
  | 0, _ => []
  | k + 1, xs =>
    if xs = [] ∨ xs.getD (argmaxFrom xs) 0 < 0 then []
    else argmaxFrom xs :: topkIdx k (xs.set (argmaxFrom xs) (-1))

/-- Modelled from the spec: the per-image inputs of the Task-Aligned
Assigner.  `metric g m` abstracts the alignment metric
`score(label g, m) ^ alpha * IoU(pred m, gt g) ^ beta` of spec section 4.2
step 2 (its real-exponent analytic form is outside the rational embedding);
`iou g m` abstracts the predicted-box IoU used for score normalization. -/
structure TAAData where
  topk : ℕ
  num_classes : ℕ
  anchors : List (ℚ × ℚ)
  gtLabels : List ℕ
  gtBoxes : List Box
  metric : ℕ → ℕ → ℚ
  iou : ℕ → ℕ → ℚ

/-- Modelled from the spec (section 4.2 steps 1-2): the candidate-masked
metric row of ground truth `g`; non-candidate anchors get the sentinel -1. -/
def taaCandRow (d : TAAData) (g : ℕ) : List ℚ :=
  (List.range d.anchors.length).map (fun m =>
    if insideBox (d.anchors.getD m (0, 0)) (d.gtBoxes.getD g zeroBox) then d.metric g m else -1)

/-- Anchor `m` is in the top-K candidate set of ground truth `g`. -/
def taaMaskPos (d : TAAData) (g m : ℕ) : Bool :=
  decide (m ∈ topkIdx d.topk (taaCandRow d g))

/-- Anchor `m` is foreground: it is a top-K candidate of some ground truth. -/
def taaFg (d : TAAData) (m : ℕ) : Bool :=
  (List.range d.gtBoxes.length).any (fun g => taaMaskPos d g m)

/-- Modelled from the spec (section 4.2 step 4): the per-anchor column of
alignment metrics over the ground truths whose top-K contains the anchor,
with the sentinel -1 elsewhere. -/
def taaOwnerCol (d : TAAData) (m : ℕ) : List ℚ :=
  (List.range d.gtBoxes.length).map (fun g => if taaMaskPos d g m then d.metric g m else -1)

/-- Modelled from the spec (section 4.2 step 4): conflict resolution — the
ground truth owning anchor `m` is the one with the highest alignment metric
among those whose top-K contains `m`, ties to the lowest index. -/
def taaOwner (d : TAAData) (m : ℕ) : ℕ := argmaxFrom (taaOwnerCol d m)

/-- Modelled from the spec (section 4.2 step 5): the target box of an anchor
is its owner's ground-truth box when foreground, the zero box otherwise. -/
def taaTargetBox (d : TAAData) (m : ℕ) : Box :=
  if taaFg d m then d.gtBoxes.getD (taaOwner d m) zeroBox else zeroBox

/-- Modelled from the spec (section 4.2 step 5): per-ground-truth maximum
predicted IoU over anchors. -/
def taaMaxIoU (d : TAAData) (g : ℕ) : ℚ :=
  ((List.range d.anchors.length).map (fun m => d.iou g m)).foldr max 0

/-- Modelled from the spec (section 4.2 step 5): per-ground-truth maximum
alignment metric over anchors. -/
def taaMaxMetric (d : TAAData) (g : ℕ) : ℚ := (taaCandRow d g).foldr max 0

/-- Modelled from the spec (section 4.2 step 5): normalized alignment score
`metric * max_iou / (max_metric + eps)` with eps = 1/1000000000. -/
def taaNormScore (d : TAAData) (g m : ℕ) : ℚ :=
  d.metric g m * (taaMaxIoU d g / (taaMaxMetric d g + 1/1000000000))

/-- Modelled from the spec (section 4.2 step 5): the soft one-hot target
class-score vector of an anchor. -/
def taaTargetScore (d : TAAData) (m : ℕ) : List ℚ :=
  if taaFg d m then
    (List.range d.num_classes).map (fun c =>
      if c = d.gtLabels.getD (taaOwner d m) 0 then taaNormScore d (taaOwner d m) m else 0)
  else List.replicate d.num_classes 0

/-- Modelled from the spec (section 4.2): the Task-Aligned Assigner output
for one image — target box, soft target class-score and foreground flag per
anchor. -/
def taskAlignedAssigner (d : TAAData) : MatcherOut :=
  { gt_box := (List.range d.anchors.length).map (taaTargetBox d)
    gt_score := (List.range d.anchors.length).map (taaTargetScore d)
    fg_mask := (List.range d.anchors.length).map (taaFg d) }

/-! General list lemmas used by the claim theorems. -/

theorem getD_map_of_lt {α β : Type} (f : α → β) (l : List α) {i : ℕ}
    (h : i < l.length) (da : α) (db : β) :
    (l.map f).getD i db = f (l.getD i da) := by
  rw [List.getD_eq_getElem _ _ (by simpa using h), List.getElem_map,
    List.getD_eq_getElem _ _ h]

theorem getD_range_map {α : Type} (f : ℕ → α) {n i : ℕ} (h : i < n) (d : α) :
    ((List.range n).map f).getD i d = f i := by
  rw [getD_map_of_lt f _ (by simpa using h) 0 d, List.getD_eq_getElem _ _ (by simpa using h),
    List.getElem_range]

theorem list_sum_getD (xs : List ℚ) :
    xs.sum = ∑ i ∈ Finset.range xs.length, xs.getD i 0 := by
  induction xs with
  | nil => simp
  | cons x t ih =>
    rw [List.sum_cons, List.length_cons, Finset.sum_range_succ']
    simp only [List.getD_cons_succ, List.getD_cons_zero]
    rw [← ih]
    ring

theorem getD_zipWith_of_lt {α β γ : Type} (f : α → β → γ) (xs : List α) (ys : List β)
    {i : ℕ} (hx : i < xs.length) (hy : i < ys.length) (da : α) (db : β) (dc : γ) :
    (List.zipWith f xs ys).getD i dc = f (xs.getD i da) (ys.getD i db) := by
  induction xs generalizing ys i with
  | nil => simp at hx
  | cons x xt ih =>
    cases ys with
    | nil => simp at hy
    | cons y yt =>
      cases i with
      | zero => simp
      | succ j =>
        simp only [List.zipWith_cons_cons, List.getD_cons_succ]
        exact ih yt (by simpa using hx) (by simpa using hy)

theorem maskSelect_nil_left {α : Type} (xs : List α) : maskSelect [] xs = [] := rfl

theorem maskSelect_nil_right {α : Type} (m : List Bool) : maskSelect m ([] : List α) = [] := by
  simp [maskSelect]

theorem maskSelect_cons_cons {α : Type} (b : Bool) (m : List Bool) (x : α) (xs : List α) :
    maskSelect (b :: m) (x :: xs) = if b then x :: maskSelect m xs else maskSelect m xs := by
  cases b <;> simp [maskSelect, List.filter_cons]

theorem maskSelect_eq_nil_of_all_false {α : Type} (m : List Bool) (xs : List α)
    (h : ∀ b ∈ m, b = false) : maskSelect m xs = [] := by
  induction m generalizing xs with
  | nil => rfl
  | cons b t ih =>
    cases xs with
    | nil => exact maskSelect_nil_right _
    | cons x xt =>
      have hb : b = false := h b (by simp)
      subst hb
      rw [maskSelect_cons_cons]
      simpa using ih xt (fun c hc => h c (by simp [hc]))

theorem maskSelect_map {α β : Type} (f : α → β) (m : List Bool) (xs : List α) :
    maskSelect m (xs.map f) = (maskSelect m xs).map f := by
  induction m generalizing xs with
  | nil => rfl
  | cons b t ih =>
    cases xs with
    | nil => simp [maskSelect_nil_right]
    | cons x xt =>
      rw [List.map_cons, maskSelect_cons_cons, maskSelect_cons_cons]
      cases b <;> simp [ih]

theorem maskSelect_zipWith {α β γ : Type} (f : α → β → γ) (m : List Bool)
    (xs : List α) (ys : List β) (h1 : m.length = xs.length) (h2 : m.length = ys.length) :
    List.zipWith f (maskSelect m xs) (maskSelect m ys) = maskSelect m (List.zipWith f xs ys) := by
  induction m generalizing xs ys with
  | nil => rfl
  | cons b t ih =>
    cases xs with
    | nil => simp at h1
    | cons x xt =>
      cases ys with
      | nil => simp at h2
      | cons y yt =>
        rw [List.zipWith_cons_cons, maskSelect_cons_cons, maskSelect_cons_cons,
          maskSelect_cons_cons]
        cases b
        · simpa using ih xt yt (by simpa using h1) (by simpa using h2)
        · simpa using ih xt yt (by simpa using h1) (by simpa using h2)

theorem maskSelect_zip {α β : Type} (m : List Bool) (xs : List α) (ys : List β)
    (h1 : m.length = xs.length) (h2 : m.length = ys.length) :
    (maskSelect m xs).zip (maskSelect m ys) = maskSelect m (xs.zip ys) := by
  simpa [List.zip] using maskSelect_zipWith Prod.mk m xs ys h1 h2

theorem sum_maskSelect (m : List Bool) (xs : List ℚ) (h : m.length = xs.length) :
    (maskSelect m xs).sum
      = ∑ i ∈ Finset.range m.length, if m.getD i false then xs.getD i 0 else 0 := by
  induction m generalizing xs with
  | nil => simp [maskSelect_nil_left]
  | cons b t ih =>
    cases xs with
    | nil => simp at h
    | cons x xt =>
      rw [maskSelect_cons_cons, List.length_cons, Finset.sum_range_succ']
      simp only [List.getD_cons_succ, List.getD_cons_zero]
      have h' : t.length = xt.length := by simpa using h
      cases b
      · simpa using ih xt h'
      · simp only [if_true, List.sum_cons, ih xt h']
        ring

theorem length_flatten_const {α : Type} (ls : List (List α)) (M : ℕ)
    (h : ∀ l ∈ ls, l.length = M) : ls.flatten.length = ls.length * M := by
  induction ls with
  | nil => simp
  | cons a t ih =>
    have ha : a.length = M := h a (by simp)
    simp only [List.flatten_cons, List.length_append, List.length_cons, ha,
      ih (fun l hl => h l (by simp [hl]))]
    ring

theorem flatten_block {α : Type} (ls : List (List α)) (M : ℕ) {i : ℕ}
    (h : ∀ l ∈ ls, l.length = M) (hi : i < ls.length) :
    ((ls.flatten.drop (i * M)).take M) = ls.getD i [] := by
  induction ls generalizing i with
  | nil => simp at hi
  | cons a t ih =>
    have ha : a.length = M := h a (by simp)
    cases i with
    | zero =>
      simp only [Nat.zero_mul, List.drop_zero, List.flatten_cons, List.getD_cons_zero]
      rw [← ha, List.take_left]
    | succ j =>
      have hst : (j + 1) * M = a.length + j * M := by rw [ha]; ring
      simp only [List.flatten_cons, List.getD_cons_succ, hst, List.drop_append]
      exact ih (fun l hl => h l (by simp [hl])) (by simpa using hi)

theorem sum_zipWith_getD (f : ℚ → ℚ → ℚ) (xs ys : List ℚ) (h : xs.length = ys.length) :
    (List.zipWith f xs ys).sum
      = ∑ j ∈ Finset.range xs.length, f (xs.getD j 0) (ys.getD j 0) := by
  induction xs generalizing ys with
  | nil => simp
  | cons x t ih =>
    cases ys with
    | nil => simp at h
    | cons y yt =>
      rw [List.zipWith_cons_cons, List.sum_cons, List.length_cons, Finset.sum_range_succ']
      simp only [List.getD_cons_succ, List.getD_cons_zero]
      rw [ih yt (by simpa using h)]
      ring

theorem sum_map_sum_zipWith (f : ℚ → ℚ → ℚ) (xs ys : List (List ℚ))
    (h : xs.length = ys.length)
    (h2 : ∀ i, i < xs.length → (xs.getD i []).length = (ys.getD i []).length) :
    ((List.zipWith (List.zipWith f) xs ys).map List.sum).sum
      = ∑ i ∈ Finset.range xs.length, ∑ j ∈ Finset.range ((xs.getD i []).length),
          f ((xs.getD i []).getD j 0) ((ys.getD i []).getD j 0) := by
  induction xs generalizing ys with
  | nil => simp
  | cons a t ih =>
    cases ys with
    | nil => simp at h
    | cons b u =>
      rw [List.zipWith_cons_cons, List.map_cons, List.sum_cons, List.length_cons,
        Finset.sum_range_succ']
      simp only [List.getD_cons_succ, List.getD_cons_zero]
      rw [ih u (by simpa using h) (fun i hi => h2 (i + 1) (by simpa using hi)),
        sum_zipWith_getD f a b (h2 0 (by simp))]
      ring

/-! Projections of `criterionCall`, independent of the `use_dfl` branch. -/

theorem criterionCall_loss_cls (ops : NumericOps) (cfg : CriterionCfg) (matcher : Matcher)
    (o : CriterionOutputs) (targets : List ImageTarget) (ctx : DistCtx) :
    (criterionCall ops cfg matcher o targets ctx).loss_cls
      = clsLossVal ops cfg matcher o targets ctx := by
  cases h : use_dfl cfg <;> simp [criterionCall, h]

theorem criterionCall_loss_box (ops : NumericOps) (cfg : CriterionCfg) (matcher : Matcher)
    (o : CriterionOutputs) (targets : List ImageTarget) (ctx : DistCtx) :
    (criterionCall ops cfg matcher o targets ctx).loss_box
      = boxLossVal ops cfg matcher o targets ctx := by
  cases h : use_dfl cfg <;> simp [criterionCall, h]

theorem criterionCall_loss_dfl_enabled (ops : NumericOps) (cfg : CriterionCfg) (matcher : Matcher)
    (o : CriterionOutputs) (targets : List ImageTarget) (ctx : DistCtx)
    (h : 1 < cfg.reg_max) :
    (criterionCall ops cfg matcher o targets ctx).loss_dfl
      = some (dflLossVal ops cfg matcher o targets ctx) := by
  have hd : use_dfl cfg = true := by simp [use_dfl, h]
  simp [criterionCall, hd]

/-! Concrete fixtures used by the witness theorems. -/

def wOps : NumericOps where
  bce := fun x y => x + 2 * y
  ce := fun l i => l.sum + (i : ℚ)
  ciou := fun p q => p.x1 + q.x2
  sigmoid := fun x => x

def wCfg1 : CriterionCfg := ⟨1, 1, 2, 3, 5⟩

def wMatcher : Matcher := fun _ _ _ _ _ => ⟨[zeroBox], [[1]], [true]⟩

def wOut1 : CriterionOutputs :=
  { pred_cls := [[[[4]]]]
    pred_reg := [[[[1, 1, 1, 1]]]]
    pred_box := [[[⟨0, 0, 1, 1⟩]]]
    anchors := [[(0, 0)]]
    stride_tensor := [[8]] }

def wTgtsEmpty : List ImageTarget := [⟨[], [], (0, 0)⟩]

def wCtx : DistCtx := ⟨false, [], 1⟩

/-- Claim C1: with `reg_max <= 1` (distribution focal loss disabled) the
mapping returned by `Criterion.__call__` contains no distribution-focal-loss
key and its total-loss entry is exactly
`loss_cls * loss_cls_weight + loss_box * loss_box_weight`, so the
distribution-focal term enters the output only when DFL is enabled. -/
theorem claim_C1 (ops : NumericOps) (cfg : CriterionCfg) (matcher : Matcher)
    (o : CriterionOutputs) (targets : List ImageTarget) (ctx : DistCtx)
    (h : cfg.reg_max ≤ 1) :
    (criterionCall ops cfg matcher o targets ctx).loss_dfl = none
    ∧ (criterionCall ops cfg matcher o targets ctx).losses
        = (criterionCall ops cfg matcher o targets ctx).loss_cls * cfg.loss_cls_weight
          + (criterionCall ops cfg matcher o targets ctx).loss_box * cfg.loss_box_weight := by
  have hd : use_dfl cfg = false := by
    simp only [use_dfl, decide_eq_false_iff_not]
    omega
  simp [criterionCall, hd]

theorem claim_C1_witness :
    wCfg1.reg_max ≤ 1
    ∧ (criterionCall wOps wCfg1 wMatcher wOut1 wTgtsEmpty wCtx).loss_dfl = none
    ∧ (criterionCall wOps wCfg1 wMatcher wOut1 wTgtsEmpty wCtx).losses
        = (criterionCall wOps wCfg1 wMatcher wOut1 wTgtsEmpty wCtx).loss_cls * wCfg1.loss_cls_weight
          + (criterionCall wOps wCfg1 wMatcher wOut1 wTgtsEmpty wCtx).loss_box * wCfg1.loss_box_weight :=
  ⟨by decide, claim_C1 wOps wCfg1 wMatcher wOut1 wTgtsEmpty wCtx (by decide)⟩

/-- Claim C9: in the shared bin computation of `Criterion.loss_dfl` and
`RegressionLoss.df_loss`, for every non-negative continuous distance target
`t` the left-bin index is `⌊t⌋`, the right-bin index is `⌊t⌋ + 1`, the two
interpolation weights sum to 1, and when `t` is an exact integer the whole
weight falls on the left bin. -/
theorem claim_C9 (t : ℚ) (h : 0 ≤ t) :
    dflLeftBin t = ⌊t⌋
    ∧ dflRightBin t = ⌊t⌋ + 1
    ∧ dflWeightLeft t + dflWeightRight t = 1
    ∧ (∀ n : ℤ, t = (n : ℚ) → dflWeightLeft t = 1 ∧ dflWeightRight t = 0) := by
  have hl : dflLeftBin t = ⌊t⌋ := by
    simp [dflLeftBin, truncQ, not_lt.mpr h]
  refine ⟨hl, by simp [dflRightBin, hl], by simp [dflWeightRight], ?_⟩
  intro n hn
  subst hn
  have hfl : dflLeftBin ((n : ℚ)) = n := by rw [hl, Int.floor_intCast]
  have hw : dflWeightLeft ((n : ℚ)) = 1 := by
    simp only [dflWeightLeft, dflRightBin, hfl]
    push_cast
    ring
  exact ⟨hw, by simp [dflWeightRight, hw]⟩

theorem claim_C9_witness :
    (0 : ℚ) ≤ 7/2 ∧ dflWeightLeft (7/2) + dflWeightRight (7/2) = 1 :=
  ⟨by norm_num, (claim_C9 (7/2) (by norm_num)).2.2.1⟩

/-- Claim C10: when the foreground mask selects no anchors,
`RegressionLoss.forward` takes its handled all-background branch and returns
zero-valued iou and dfl losses. -/
theorem claim_C10 (ops : NumericOps) (cfg : RegLossCfg) (pred_regs : List (List ℚ))
    (pred_boxs : List Box) (anchors : List (ℚ × ℚ)) (gt_boxs : List Box)
    (bbox_weight : List ℚ) (fg_masks : List Bool) (strides : List ℚ)
    (h : fg_masks.count true = 0) :
    RegressionLoss_forward ops cfg pred_regs pred_boxs anchors gt_boxs bbox_weight
      fg_masks strides = ([0], [0]) := by
  have hlt : ¬ 0 < fg_masks.count true := by omega
  simp [RegressionLoss_forward, hlt]

theorem claim_C10_witness :
    ([false, false] : List Bool).count true = 0
    ∧ RegressionLoss_forward wOps ⟨1, 16, true⟩ [[1, 2], [3, 4]] [zeroBox, zeroBox]
        [(0, 0), (1, 1)] [zeroBox, zeroBox] [1, 1] [false, false] [8, 8] = ([0], [0]) :=
  ⟨by decide,
   claim_C10 wOps ⟨1, 16, true⟩ [[1, 2], [3, 4]] [zeroBox, zeroBox]
     [(0, 0), (1, 1)] [zeroBox, zeroBox] [1, 1] [false, false] [8, 8] (by decide)⟩

/-- Claim C3: the loss normalizer of `Criterion.__call__` is the total
positive-target mass — the sum over all anchors and classes of the target
class scores; when distributed training is active the collective sum with
the other workers' masses is applied (unconditionally, whatever the local
mass is), divided by the world size, and the result is floored at 1; when
inactive the local mass is floored at 1. -/
theorem claim_C3 (ops : NumericOps) (cfg : CriterionCfg) (matcher : Matcher)
    (o : CriterionOutputs) (targets : List ImageTarget) (ctx : DistCtx) :
    numFgsLocal ops cfg matcher o targets
      = (∑ i ∈ Finset.range (gtScoreFlat ops cfg matcher o targets).length,
          ∑ j ∈ Finset.range (((gtScoreFlat ops cfg matcher o targets).getD i []).length),
            ((gtScoreFlat ops cfg matcher o targets).getD i []).getD j 0)
    ∧ (ctx.active = true →
        normalizerOf ctx (numFgsLocal ops cfg matcher o targets)
          = max 1 ((numFgsLocal ops cfg matcher o targets + ctx.others.sum)
              / (ctx.world_size : ℚ)))
    ∧ (ctx.active = false →
        normalizerOf ctx (numFgsLocal ops cfg matcher o targets)
          = max 1 (numFgsLocal ops cfg matcher o targets)) := by
  refine ⟨?_, ?_, ?_⟩
  · rw [numFgsLocal, list_sum_getD, List.length_map]
    refine Finset.sum_congr rfl (fun i hi => ?_)
    have hi' : i < (gtScoreFlat ops cfg matcher o targets).length := by
      simpa using Finset.mem_range.mp hi
    rw [getD_map_of_lt List.sum _ hi' [] 0, list_sum_getD]
  · intro ha
    simp [normalizerOf, allReduceSum, get_world_size, ha, max_comm]
  · intro ha
    simp [normalizerOf, get_world_size, ha, max_comm]

def wMatcher5 : Matcher := fun _ _ _ _ _ => ⟨[zeroBox], [[5]], [true]⟩

def wMatcher3 : Matcher := fun _ _ _ _ _ => ⟨[zeroBox], [[3]], [true]⟩

def wTgtsNZ : List ImageTarget := [⟨[0], [⟨0, 0, 2, 2⟩], (0, 0)⟩]

def wCtxA : DistCtx := ⟨true, [3], 2⟩

def wCtxB : DistCtx := ⟨true, [5], 2⟩

theorem claim_C3_witness :
    wCtxA.active = true
    ∧ normalizerOf wCtxA (numFgsLocal wOps wCfg1 wMatcher5 wOut1 wTgtsNZ) = 4
    ∧ normalizerOf wCtxB (numFgsLocal wOps wCfg1 wMatcher3 wOut1 wTgtsNZ) = 4 := by
  have h5 : numFgsLocal wOps wCfg1 wMatcher5 wOut1 wTgtsNZ = 5 := by
    simp [numFgsLocal, gtScoreFlat, assignResults, assignImage, batchSize, numAnchors,
      anchorsCat, clsPreds, boxPreds, catDim1, listMax, coordList, wOut1, wTgtsNZ,
      wMatcher5, wOps, wCfg1, List.range_succ]
  have h3 : numFgsLocal wOps wCfg1 wMatcher3 wOut1 wTgtsNZ = 3 := by
    simp [numFgsLocal, gtScoreFlat, assignResults, assignImage, batchSize, numAnchors,
      anchorsCat, clsPreds, boxPreds, catDim1, listMax, coordList, wOut1, wTgtsNZ,
      wMatcher3, wOps, wCfg1, List.range_succ]
  refine ⟨rfl, ?_, ?_⟩
  · rw [(claim_C3 wOps wCfg1 wMatcher5 wOut1 wTgtsNZ wCtxA).2.1 rfl, h5]
    norm_num [wCtxA]
  · rw [(claim_C3 wOps wCfg1 wMatcher3 wOut1 wTgtsNZ wCtxB).2.1 rfl, h3]
    norm_num [wCtxB]

theorem foldl_max_zero (xs : List ℚ) (c : ℚ) (hc : c = 0) (h0 : ∀ y ∈ xs, y = 0) :
    xs.foldl max c = 0 := by
  induction xs generalizing c with
  | nil => simpa using hc
  | cons y t ih =>
    have hy : y = 0 := h0 y (by simp)
    simp only [List.foldl_cons]
    exact ih (max c y) (by simp [hc, hy]) (fun z hz => h0 z (by simp [hz]))

theorem listMax_eq_zero (l : List ℚ) (hne : l ≠ []) (h0 : ∀ c ∈ l, c = 0) :
    listMax l = some 0 := by
  cases l with
  | nil => simp at hne
  | cons x t =>
    simp only [listMax]
    rw [foldl_max_zero t x (h0 x (by simp)) (fun y hy => h0 y (List.mem_cons_of_mem x hy))]

theorem coordList_ne_nil (bs : List Box) (h : bs ≠ []) : coordList bs ≠ [] := by
  cases bs with
  | nil => simp at h
  | cons b t => simp [coordList]

/-- Under an all-degenerate batch, every per-image assignment result is the
all-background output of the short-circuit branch. -/
theorem assignResults_degenerate (ops : NumericOps) (cfg : CriterionCfg) (matcher : Matcher)
    (o : CriterionOutputs) (targets : List ImageTarget)
    (h : ∀ b, b < batchSize o →
        (targets.getD b default).labels = []
        ∨ ((targets.getD b default).boxes ≠ []
            ∧ ∀ c ∈ coordList (targets.getD b default).boxes, c = 0)) :
    ∀ r ∈ assignResults ops cfg matcher o targets,
      r = ⟨List.replicate (numAnchors o) zeroBox,
           List.replicate (numAnchors o) (List.replicate cfg.num_classes 0),
           List.replicate (numAnchors o) false⟩ := by
  intro r hr
  rw [assignResults] at hr
  obtain ⟨b, hb, rfl⟩ := List.mem_map.mp hr
  have hblt : b < batchSize o := List.mem_range.mp hb
  rcases h b hblt with hl | ⟨hne, hz⟩
  · have hl' : (targets.getD b default).labels.length = 0 := by rw [hl]; rfl
    simp only [assignImage]
    rw [if_pos (Or.inl hl')]
  · have hm : listMax (coordList (targets.getD b default).boxes) = some 0 :=
      listMax_eq_zero _ (coordList_ne_nil _ hne) hz
    simp only [assignImage]
    rw [if_pos (Or.inr hm)]

/-- Claim C2: a batch in which every image has no ground-truth boxes or only
all-zero box coordinates is a handled all-background branch of
`Criterion.__call__`: the concatenated foreground mask is all-false, the
classification-score targets are all zero, and the box and
distribution-focal losses are exactly zero. -/
theorem claim_C2 (ops : NumericOps) (cfg : CriterionCfg) (matcher : Matcher)
    (o : CriterionOutputs) (targets : List ImageTarget) (ctx : DistCtx)
    (h : ∀ b, b < batchSize o →
        (targets.getD b default).labels = []
        ∨ ((targets.getD b default).boxes ≠ []
            ∧ ∀ c ∈ coordList (targets.getD b default).boxes, c = 0)) :
    (∀ x ∈ fgMasksFlat ops cfg matcher o targets, x = false)
    ∧ (∀ row ∈ gtScoreFlat ops cfg matcher o targets, ∀ q ∈ row, q = 0)
    ∧ (criterionCall ops cfg matcher o targets ctx).loss_box = 0
    ∧ dflLossVal ops cfg matcher o targets ctx = 0
    ∧ ((criterionCall ops cfg matcher o targets ctx).loss_dfl = none
        ∨ (criterionCall ops cfg matcher o targets ctx).loss_dfl = some 0) := by
  have hdeg := assignResults_degenerate ops cfg matcher o targets h
  have hfg : ∀ x ∈ fgMasksFlat ops cfg matcher o targets, x = false := by
    intro x hx
    rw [fgMasksFlat] at hx
    obtain ⟨l, hl, hxl⟩ := List.mem_flatten.mp hx
    obtain ⟨r, hr, rfl⟩ := List.mem_map.mp hl
    rw [hdeg r hr] at hxl
    exact List.eq_of_mem_replicate hxl
  have hsc : ∀ row ∈ gtScoreFlat ops cfg matcher o targets, ∀ q ∈ row, q = 0 := by
    intro row hrow q hq
    rw [gtScoreFlat] at hrow
    obtain ⟨l, hl, hrl⟩ := List.mem_flatten.mp hrow
    obtain ⟨r, hr, rfl⟩ := List.mem_map.mp hl
    rw [hdeg r hr] at hrl
    have hrep : row = List.replicate cfg.num_classes 0 := List.eq_of_mem_replicate hrl
    rw [hrep] at hq
    exact List.eq_of_mem_replicate hq
  have hbox : boxLossVal ops cfg matcher o targets ctx = 0 := by
    rw [boxLossVal,
      maskSelect_eq_nil_of_all_false (fgMasksFlat ops cfg matcher o targets) (boxFlatAll o) hfg]
    simp [loss_bboxes]
  have hdfl : dflLossVal ops cfg matcher o targets ctx = 0 := by
    rw [dflLossVal,
      maskSelect_eq_nil_of_all_false (fgMasksFlat ops cfg matcher o targets) (regFlat o) hfg]
    simp [loss_dfl]
  refine ⟨hfg, hsc, by rw [criterionCall_loss_box]; exact hbox, hdfl, ?_⟩
  cases hu : use_dfl cfg
  · exact Or.inl (by simp [criterionCall, hu])
  · exact Or.inr (by simp [criterionCall, hu, hdfl])

def wTgts0 : List ImageTarget := [⟨[0], [⟨0, 0, 0, 0⟩], (0, 0)⟩]

theorem claim_C2_witness :
    (∀ b, b < batchSize wOut1 →
        (wTgts0.getD b default).labels = []
        ∨ ((wTgts0.getD b default).boxes ≠ []
            ∧ ∀ c ∈ coordList (wTgts0.getD b default).boxes, c = 0))
    ∧ (criterionCall wOps wCfg1 wMatcher wOut1 wTgts0 wCtx).loss_box = 0 :=
  ⟨by decide, (claim_C2 wOps wCfg1 wMatcher wOut1 wTgts0 wCtx (by decide)).2.2.1⟩

/-- Claim C4: the classification loss returned by `Criterion.__call__` is the
elementwise binary cross-entropy between the class logits and the soft
class-score targets, summed over every anchor and class (foreground and
background alike), divided by the normalizer. -/
theorem claim_C4 (ops : NumericOps) (cfg : CriterionCfg) (matcher : Matcher)
    (o : CriterionOutputs) (targets : List ImageTarget) (ctx : DistCtx)
    (hlen : (clsFlat o).length = (gtScoreFlat ops cfg matcher o targets).length)
    (hrows : ∀ i, i < (clsFlat o).length →
        ((clsFlat o).getD i []).length
          = ((gtScoreFlat ops cfg matcher o targets).getD i []).length) :
    (criterionCall ops cfg matcher o targets ctx).loss_cls
      = (∑ i ∈ Finset.range (clsFlat o).length,
          ∑ j ∈ Finset.range (((clsFlat o).getD i []).length),
            ops.bce (((clsFlat o).getD i []).getD j 0)
              (((gtScoreFlat ops cfg matcher o targets).getD i []).getD j 0))
        / normalizerOf ctx (numFgsLocal ops cfg matcher o targets) := by
  rw [criterionCall_loss_cls, clsLossVal, loss_classes,
    sum_map_sum_zipWith ops.bce (clsFlat o) (gtScoreFlat ops cfg matcher o targets) hlen hrows]

theorem claim_C4_witness :
    (clsFlat wOut1).length = (gtScoreFlat wOps wCfg1 wMatcher wOut1 wTgtsNZ).length
    ∧ (criterionCall wOps wCfg1 wMatcher wOut1 wTgtsNZ wCtx).loss_cls
        = (∑ i ∈ Finset.range (clsFlat wOut1).length,
            ∑ j ∈ Finset.range (((clsFlat wOut1).getD i []).length),
              wOps.bce (((clsFlat wOut1).getD i []).getD j 0)
                (((gtScoreFlat wOps wCfg1 wMatcher wOut1 wTgtsNZ).getD i []).getD j 0))
          / normalizerOf wCtx (numFgsLocal wOps wCfg1 wMatcher wOut1 wTgtsNZ) :=
  ⟨by decide,
   claim_C4 wOps wCfg1 wMatcher wOut1 wTgtsNZ wCtx (by decide) (by decide)⟩

theorem getD_zip_of_lt {α β : Type} (xs : List α) (ys : List β) {i : ℕ}
    (hx : i < xs.length) (hy : i < ys.length) (da : α) (db : β) :
    (xs.zip ys).getD i (da, db) = (xs.getD i da, ys.getD i db) := by
  simpa [List.zip] using getD_zipWith_of_lt Prod.mk xs ys hx hy da db (da, db)

/-- Claim C5: the box loss returned by `Criterion.__call__` is the sum over
foreground anchors only of `(1 - CIoU(pred box, target box))` weighted by the
anchor's target-score mass (the sum of its target class-score row), divided
by the normalizer; background anchors contribute nothing. -/
theorem claim_C5 (ops : NumericOps) (cfg : CriterionCfg) (matcher : Matcher)
    (o : CriterionOutputs) (targets : List ImageTarget) (ctx : DistCtx)
    (hP : (boxFlatAll o).length = (fgMasksFlat ops cfg matcher o targets).length)
    (hT : (gtBoxFlat ops cfg matcher o targets).length
        = (fgMasksFlat ops cfg matcher o targets).length)
    (hS : (gtScoreFlat ops cfg matcher o targets).length
        = (fgMasksFlat ops cfg matcher o targets).length) :
    (criterionCall ops cfg matcher o targets ctx).loss_box
      = (∑ i ∈ Finset.range (fgMasksFlat ops cfg matcher o targets).length,
          if (fgMasksFlat ops cfg matcher o targets).getD i false then
            (1 - ops.ciou ((boxFlatAll o).getD i zeroBox)
                ((gtBoxFlat ops cfg matcher o targets).getD i zeroBox))
              * ((gtScoreFlat ops cfg matcher o targets).getD i []).sum
          else 0)
        / normalizerOf ctx (numFgsLocal ops cfg matcher o targets) := by
  rw [criterionCall_loss_box, boxLossVal, boxTargetsPos, bboxWeightPos, loss_bboxes,
    ← maskSelect_map List.sum (fgMasksFlat ops cfg matcher o targets)
      (gtScoreFlat ops cfg matcher o targets),
    maskSelect_zip (fgMasksFlat ops cfg matcher o targets) (boxFlatAll o)
      (gtBoxFlat ops cfg matcher o targets) hP.symm hT.symm,
    maskSelect_zipWith _ (fgMasksFlat ops cfg matcher o targets)
      ((boxFlatAll o).zip (gtBoxFlat ops cfg matcher o targets))
      ((gtScoreFlat ops cfg matcher o targets).map List.sum)
      (by simp [List.length_zip, hP, hT]) (by simp [hS]),
    sum_maskSelect (fgMasksFlat ops cfg matcher o targets) _
      (by simp [List.length_zipWith, List.length_zip, List.length_map, hP, hT, hS])]
  congr 1
  refine Finset.sum_congr rfl (fun i hi => ?_)
  have hi' : i < (fgMasksFlat ops cfg matcher o targets).length := Finset.mem_range.mp hi
  by_cases hb : (fgMasksFlat ops cfg matcher o targets).getD i false
  · rw [if_pos hb, if_pos hb,
      getD_zipWith_of_lt _ ((boxFlatAll o).zip (gtBoxFlat ops cfg matcher o targets))
        ((gtScoreFlat ops cfg matcher o targets).map List.sum)
        (by simp [List.length_zip]; omega) (by simp [List.length_map]; omega)
        (zeroBox, zeroBox) 0 0,
      getD_zip_of_lt (boxFlatAll o) (gtBoxFlat ops cfg matcher o targets)
        (by omega) (by omega) zeroBox zeroBox,
      getD_map_of_lt List.sum (gtScoreFlat ops cfg matcher o targets) (by omega) [] 0]
  · rw [if_neg hb, if_neg hb]

theorem claim_C5_witness :
    (boxFlatAll wOut1).length = (fgMasksFlat wOps wCfg1 wMatcher5 wOut1 wTgtsNZ).length
    ∧ (criterionCall wOps wCfg1 wMatcher5 wOut1 wTgtsNZ wCtx).loss_box
        = (∑ i ∈ Finset.range (fgMasksFlat wOps wCfg1 wMatcher5 wOut1 wTgtsNZ).length,
            if (fgMasksFlat wOps wCfg1 wMatcher5 wOut1 wTgtsNZ).getD i false then
              (1 - wOps.ciou ((boxFlatAll wOut1).getD i zeroBox)
                  ((gtBoxFlat wOps wCfg1 wMatcher5 wOut1 wTgtsNZ).getD i zeroBox))
                * ((gtScoreFlat wOps wCfg1 wMatcher5 wOut1 wTgtsNZ).getD i []).sum
            else 0)
          / normalizerOf wCtx (numFgsLocal wOps wCfg1 wMatcher5 wOut1 wTgtsNZ) :=
  ⟨by decide,
   claim_C5 wOps wCfg1 wMatcher5 wOut1 wTgtsNZ wCtx (by decide) (by decide) (by decide)⟩

/-- The spec's wording (section 4.3 step 6) of one foreground anchor's
distribution-focal contribution: rescale the assigned box and the anchor
point by the stride, convert them into four continuous bin-distance
targets, take a cross-entropy against the left bin `⌊t⌋` weighted by
`⌊t⌋ + 1 - t` plus a cross-entropy against the right bin `⌊t⌋ + 1` weighted
by `t - ⌊t⌋`, and average across the four sides. -/
def specDflRow (ops : NumericOps) (cfg : CriterionCfg) (reg_row : List ℚ) (b : Box)
    (a : ℚ × ℚ) (s : ℚ) : ℚ :=
  ((List.range 4).map (fun j =>
      ops.ce (chunkRow cfg.reg_max reg_row j)
          ⌊(bbox2dist (a.1 / s, a.2 / s) (divBox b s) ((cfg.reg_max : ℚ) - 1)).getD j 0⌋
        * ((⌊(bbox2dist (a.1 / s, a.2 / s) (divBox b s) ((cfg.reg_max : ℚ) - 1)).getD j 0⌋ : ℚ)
            + 1 - (bbox2dist (a.1 / s, a.2 / s) (divBox b s) ((cfg.reg_max : ℚ) - 1)).getD j 0)
      + ops.ce (chunkRow cfg.reg_max reg_row j)
          (⌊(bbox2dist (a.1 / s, a.2 / s) (divBox b s) ((cfg.reg_max : ℚ) - 1)).getD j 0⌋ + 1)
        * ((bbox2dist (a.1 / s, a.2 / s) (divBox b s) ((cfg.reg_max : ℚ) - 1)).getD j 0
            - (⌊(bbox2dist (a.1 / s, a.2 / s) (divBox b s) ((cfg.reg_max : ℚ) - 1)).getD j 0⌋ : ℚ)))).sum
    / 4

theorem clampQ_nonneg (x hi : ℚ) (hhi : 0 ≤ hi) : 0 ≤ clampQ x 0 hi :=
  le_min (le_max_right x 0) hhi

theorem dflLeftBin_of_nonneg (t : ℚ) (h : 0 ≤ t) : dflLeftBin t = ⌊t⌋ := by
  simp [dflLeftBin, truncQ, not_lt.mpr h]

theorem dflWeightLeft_of_nonneg (t : ℚ) (h : 0 ≤ t) :
    dflWeightLeft t = (⌊t⌋ : ℚ) + 1 - t := by
  simp only [dflWeightLeft, dflRightBin, dflLeftBin_of_nonneg t h]
  push_cast
  ring

theorem dflWeightRight_of_nonneg (t : ℚ) (h : 0 ≤ t) :
    dflWeightRight t = t - (⌊t⌋ : ℚ) := by
  rw [dflWeightRight, dflWeightLeft_of_nonneg t h]
  ring

theorem bbox2dist_nonneg (a : ℚ × ℚ) (b : Box) (mb : ℚ) (hmb : 0 ≤ mb - 1/100) :
    ∀ t ∈ bbox2dist a b mb, 0 ≤ t := by
  intro t ht
  simp only [bbox2dist, List.mem_cons, List.not_mem_nil, or_false] at ht
  rcases ht with h' | h' | h' | h' <;> rw [h'] <;> exact clampQ_nonneg _ _ hmb

/-- With distribution focal loss enabled (`reg_max >= 2`), one row of
`Criterion.loss_dfl` agrees with the spec's floor-based description. -/
theorem loss_dfl_row_eq_spec (ops : NumericOps) (cfg : CriterionCfg)
    (h : 2 ≤ cfg.reg_max) (r : List ℚ) (b : Box) (a : ℚ × ℚ) (s : ℚ) :
    loss_dfl_row ops cfg r b a s = specDflRow ops cfg r b a s := by
  have h2 : (2 : ℚ) ≤ (cfg.reg_max : ℚ) := by exact_mod_cast h
  have hmb : (0 : ℚ) ≤ ((cfg.reg_max : ℚ) - 1) - 1/100 := by linarith
  have hnn := bbox2dist_nonneg (a.1 / s, a.2 / s) (divBox b s) ((cfg.reg_max : ℚ) - 1) hmb
  show (dflRowTerms ops cfg.reg_max r
      (bbox2dist (a.1 / s, a.2 / s) (divBox b s) ((cfg.reg_max : ℚ) - 1))).sum
    / ((bbox2dist (a.1 / s, a.2 / s) (divBox b s) ((cfg.reg_max : ℚ) - 1)).length : ℚ)
    = specDflRow ops cfg r b a s
  have hlen : (bbox2dist (a.1 / s, a.2 / s) (divBox b s) ((cfg.reg_max : ℚ) - 1)).length = 4 :=
    rfl
  rw [specDflRow, dflRowTerms, hlen]
  have hcast : ((4 : ℕ) : ℚ) = 4 := by norm_num
  rw [hcast]
  congr 1
  refine congrArg List.sum (List.map_congr_left (fun j hj => ?_))
  have hj4 : j < 4 := by simpa using hj
  have htm : (bbox2dist (a.1 / s, a.2 / s) (divBox b s) ((cfg.reg_max : ℚ) - 1)).getD j 0
      ∈ bbox2dist (a.1 / s, a.2 / s) (divBox b s) ((cfg.reg_max : ℚ) - 1) := by
    rw [List.getD_eq_getElem _ _ (by rw [hlen]; exact hj4)]
    exact List.getElem_mem _
  have ht0 := hnn _ htm
  rw [dflLeftBin_of_nonneg _ ht0, dflWeightLeft_of_nonneg _ ht0, dflRightBin,
    dflLeftBin_of_nonneg _ ht0, dflWeightRight_of_nonneg _ ht0]

/-- Claim C6: with distribution focal loss enabled (`reg_max > 1`), the
DFL entry of the returned mapping equals the sum over foreground anchors of
the spec's per-anchor DFL formula (stride-rescaled box and anchor converted
to four continuous bin distances, floor-based two-bin cross-entropy
interpolation averaged over the four sides) weighted by the anchor's
target-score mass, divided by the normalizer. -/
theorem claim_C6 (ops : NumericOps) (cfg : CriterionCfg) (matcher : Matcher)
    (o : CriterionOutputs) (targets : List ImageTarget) (ctx : DistCtx)
    (hreg : 2 ≤ cfg.reg_max)
    (hR : (regFlat o).length = (fgMasksFlat ops cfg matcher o targets).length)
    (hT : (gtBoxFlat ops cfg matcher o targets).length
        = (fgMasksFlat ops cfg matcher o targets).length)
    (hA : (anchorsRep o).length = (fgMasksFlat ops cfg matcher o targets).length)
    (hSt : (stridesRep o).length = (fgMasksFlat ops cfg matcher o targets).length)
    (hS : (gtScoreFlat ops cfg matcher o targets).length
        = (fgMasksFlat ops cfg matcher o targets).length) :
    (criterionCall ops cfg matcher o targets ctx).loss_dfl
      = some ((∑ i ∈ Finset.range (fgMasksFlat ops cfg matcher o targets).length,
          if (fgMasksFlat ops cfg matcher o targets).getD i false then
            specDflRow ops cfg ((regFlat o).getD i [])
                ((gtBoxFlat ops cfg matcher o targets).getD i zeroBox)
                ((anchorsRep o).getD i (0, 0)) ((stridesRep o).getD i 0)
              * ((gtScoreFlat ops cfg matcher o targets).getD i []).sum
          else 0)
        / normalizerOf ctx (numFgsLocal ops cfg matcher o targets)) := by
  rw [criterionCall_loss_dfl_enabled ops cfg matcher o targets ctx (by omega)]
  congr 1
  rw [dflLossVal, boxTargetsPos, bboxWeightPos, loss_dfl,
    ← maskSelect_map List.sum (fgMasksFlat ops cfg matcher o targets)
      (gtScoreFlat ops cfg matcher o targets),
    maskSelect_zip (fgMasksFlat ops cfg matcher o targets) (anchorsRep o) (stridesRep o)
      hA.symm hSt.symm,
    maskSelect_zip (fgMasksFlat ops cfg matcher o targets) (gtBoxFlat ops cfg matcher o targets)
      ((anchorsRep o).zip (stridesRep o)) hT.symm (by simp [List.length_zip]; omega),
    maskSelect_zip (fgMasksFlat ops cfg matcher o targets) (regFlat o)
      ((gtBoxFlat ops cfg matcher o targets).zip ((anchorsRep o).zip (stridesRep o)))
      hR.symm (by simp [List.length_zip]; omega),
    maskSelect_zipWith _ (fgMasksFlat ops cfg matcher o targets)
      ((regFlat o).zip
        ((gtBoxFlat ops cfg matcher o targets).zip ((anchorsRep o).zip (stridesRep o))))
      ((gtScoreFlat ops cfg matcher o targets).map List.sum)
      (by simp [List.length_zip]; omega) (by simp [List.length_map]; omega),
    sum_maskSelect (fgMasksFlat ops cfg matcher o targets) _
      (by simp [List.length_zipWith, List.length_zip, List.length_map]; omega)]
  congr 1
  refine Finset.sum_congr rfl (fun i hi => ?_)
  have hi' : i < (fgMasksFlat ops cfg matcher o targets).length := Finset.mem_range.mp hi
  by_cases hb : (fgMasksFlat ops cfg matcher o targets).getD i false
  · rw [if_pos hb, if_pos hb,
      getD_zipWith_of_lt _
        ((regFlat o).zip
          ((gtBoxFlat ops cfg matcher o targets).zip ((anchorsRep o).zip (stridesRep o))))
        ((gtScoreFlat ops cfg matcher o targets).map List.sum)
        (by simp [List.length_zip]; omega) (by simp [List.length_map]; omega)
        ([], (zeroBox, ((0, 0), 0))) 0 0,
      getD_zip_of_lt (regFlat o)
        ((gtBoxFlat ops cfg matcher o targets).zip ((anchorsRep o).zip (stridesRep o)))
        (by omega) (by simp [List.length_zip]; omega) [] (zeroBox, ((0, 0), 0)),
      getD_zip_of_lt (gtBoxFlat ops cfg matcher o targets)
        ((anchorsRep o).zip (stridesRep o)) (by omega) (by simp [List.length_zip]; omega)
        zeroBox ((0, 0), 0),
      getD_zip_of_lt (anchorsRep o) (stridesRep o) (by omega) (by omega) (0, 0) 0,
      getD_map_of_lt List.sum (gtScoreFlat ops cfg matcher o targets) (by omega) [] 0]
    exact congrArg
      (fun z => z * ((gtScoreFlat ops cfg matcher o targets).getD i []).sum)
      (loss_dfl_row_eq_spec ops cfg hreg ((regFlat o).getD i [])
        ((gtBoxFlat ops cfg matcher o targets).getD i zeroBox)
        ((anchorsRep o).getD i (0, 0)) ((stridesRep o).getD i 0))
  · rw [if_neg hb, if_neg hb]

def wCfg2 : CriterionCfg := ⟨1, 2, 2, 3, 5⟩

def wOut2 : CriterionOutputs :=
  { pred_cls := [[[[4]]]]
    pred_reg := [[[[1, 1, 1, 1, 1, 1, 1, 1]]]]
    pred_box := [[[⟨0, 0, 1, 1⟩]]]
    anchors := [[(0, 0)]]
    stride_tensor := [[8]] }

theorem claim_C6_witness :
    2 ≤ wCfg2.reg_max
    ∧ (criterionCall wOps wCfg2 wMatcher5 wOut2 wTgtsNZ wCtx).loss_dfl
        = some ((∑ i ∈ Finset.range (fgMasksFlat wOps wCfg2 wMatcher5 wOut2 wTgtsNZ).length,
            if (fgMasksFlat wOps wCfg2 wMatcher5 wOut2 wTgtsNZ).getD i false then
              specDflRow wOps wCfg2 ((regFlat wOut2).getD i [])
                  ((gtBoxFlat wOps wCfg2 wMatcher5 wOut2 wTgtsNZ).getD i zeroBox)
                  ((anchorsRep wOut2).getD i (0, 0)) ((stridesRep wOut2).getD i 0)
                * ((gtScoreFlat wOps wCfg2 wMatcher5 wOut2 wTgtsNZ).getD i []).sum
            else 0)
          / normalizerOf wCtx (numFgsLocal wOps wCfg2 wMatcher5 wOut2 wTgtsNZ)) :=
  ⟨by decide,
   claim_C6 wOps wCfg2 wMatcher5 wOut2 wTgtsNZ wCtx (by decide) (by decide) (by decide)
     (by decide) (by decide) (by decide)⟩

theorem assignResults_length (ops : NumericOps) (cfg : CriterionCfg) (matcher : Matcher)
    (o : CriterionOutputs) (targets : List ImageTarget) :
    (assignResults ops cfg matcher o targets).length = batchSize o := by
  simp [assignResults]

theorem assignResults_getD (ops : NumericOps) (cfg : CriterionCfg) (matcher : Matcher)
    (o : CriterionOutputs) (targets : List ImageTarget) {i : ℕ} (hi : i < batchSize o) :
    (assignResults ops cfg matcher o targets).getD i default
      = assignImage ops cfg.num_classes (numAnchors o) matcher (anchorsCat o)
          ((clsPreds o).getD i []) ((boxPreds o).getD i []) (targets.getD i default) := by
  rw [assignResults, getD_range_map _ hi]

/-- Claim C7: per-image label assignment in `Criterion.__call__` is
independent and order-preserving — the image-`i` entry of the assignment
results depends only on image `i`'s predictions and ground truth (any change
to the other images leaves it untouched), and the `i`-th `M`-sized block of
each stacked flat tensor is exactly image `i`'s per-image result. -/
theorem claim_C7 (ops : NumericOps) (cfg : CriterionCfg) (matcher : Matcher)
    (o o' : CriterionOutputs) (targets targets' : List ImageTarget) (i : ℕ)
    (hbs : batchSize o' = batchSize o)
    (hanc : anchorsCat o' = anchorsCat o)
    (hcls : (clsPreds o').getD i [] = (clsPreds o).getD i [])
    (hbox : (boxPreds o').getD i [] = (boxPreds o).getD i [])
    (htgt : targets'.getD i default = targets.getD i default)
    (hi : i < batchSize o)
    (hM : ∀ r ∈ assignResults ops cfg matcher o targets,
        r.fg_mask.length = numAnchors o ∧ r.gt_score.length = numAnchors o
        ∧ r.gt_box.length = numAnchors o) :
    (assignResults ops cfg matcher o' targets').getD i default
      = (assignResults ops cfg matcher o targets).getD i default
    ∧ ((fgMasksFlat ops cfg matcher o targets).drop (i * numAnchors o)).take (numAnchors o)
        = ((assignResults ops cfg matcher o targets).getD i default).fg_mask
    ∧ ((gtScoreFlat ops cfg matcher o targets).drop (i * numAnchors o)).take (numAnchors o)
        = ((assignResults ops cfg matcher o targets).getD i default).gt_score
    ∧ ((gtBoxFlat ops cfg matcher o targets).drop (i * numAnchors o)).take (numAnchors o)
        = ((assignResults ops cfg matcher o targets).getD i default).gt_box := by
  have hna : numAnchors o' = numAnchors o := by simp [numAnchors, hanc]
  have hres : i < (assignResults ops cfg matcher o targets).length := by
    rw [assignResults_length]; exact hi
  refine ⟨?_, ?_, ?_, ?_⟩
  · rw [assignResults_getD ops cfg matcher o' targets' (by omega),
      assignResults_getD ops cfg matcher o targets hi, hanc, hna, hcls, hbox, htgt]
  · rw [fgMasksFlat,
      flatten_block ((assignResults ops cfg matcher o targets).map MatcherOut.fg_mask)
        (numAnchors o)
        (fun l hl => by
          obtain ⟨r, hr, rfl⟩ := List.mem_map.mp hl
          exact (hM r hr).1)
        (by simpa using hres),
      getD_map_of_lt MatcherOut.fg_mask _ hres default []]
  · rw [gtScoreFlat,
      flatten_block ((assignResults ops cfg matcher o targets).map MatcherOut.gt_score)
        (numAnchors o)
        (fun l hl => by
          obtain ⟨r, hr, rfl⟩ := List.mem_map.mp hl
          exact (hM r hr).2.1)
        (by simpa using hres),
      getD_map_of_lt MatcherOut.gt_score _ hres default []]
  · rw [gtBoxFlat,
      flatten_block ((assignResults ops cfg matcher o targets).map MatcherOut.gt_box)
        (numAnchors o)
        (fun l hl => by
          obtain ⟨r, hr, rfl⟩ := List.mem_map.mp hl
          exact (hM r hr).2.2)
        (by simpa using hres),
      getD_map_of_lt MatcherOut.gt_box _ hres default []]

def wOut3 : CriterionOutputs :=
  { pred_cls := [[[[4]], [[6]]]]
    pred_reg := [[[[1, 1, 1, 1]], [[2, 2, 2, 2]]]]
    pred_box := [[[⟨0, 0, 1, 1⟩], [⟨0, 0, 2, 2⟩]]]
    anchors := [[(0, 0)]]
    stride_tensor := [[8]] }

def wOut4 : CriterionOutputs :=
  { pred_cls := [[[[4]], [[7]]]]
    pred_reg := [[[[1, 1, 1, 1]], [[9, 9, 9, 9]]]]
    pred_box := [[[⟨0, 0, 1, 1⟩], [⟨0, 0, 5, 5⟩]]]
    anchors := [[(0, 0)]]
    stride_tensor := [[8]] }

def wTgtsC7 : List ImageTarget :=
  [⟨[0], [⟨0, 0, 2, 2⟩], (0, 0)⟩, ⟨[], [], (0, 0)⟩]

def wTgtsC7' : List ImageTarget :=
  [⟨[0], [⟨0, 0, 2, 2⟩], (0, 0)⟩, ⟨[1], [⟨0, 0, 3, 3⟩], (0, 0)⟩]

theorem claim_C7_witness :
    batchSize wOut4 = batchSize wOut3
    ∧ (assignResults wOps wCfg1 wMatcher wOut4 wTgtsC7').getD 0 default
        = (assignResults wOps wCfg1 wMatcher wOut3 wTgtsC7).getD 0 default
    ∧ ((fgMasksFlat wOps wCfg1 wMatcher wOut3 wTgtsC7).drop (0 * numAnchors wOut3)).take
        (numAnchors wOut3)
        = ((assignResults wOps wCfg1 wMatcher wOut3 wTgtsC7).getD 0 default).fg_mask :=
  ⟨by decide,
   (claim_C7 wOps wCfg1 wMatcher wOut3 wOut4 wTgtsC7 wTgtsC7' 0 (by decide) (by decide)
     (by decide) (by decide) (by decide) (by decide) (by decide)).1,
   (claim_C7 wOps wCfg1 wMatcher wOut3 wOut4 wTgtsC7 wTgtsC7' 0 (by decide) (by decide)
     (by decide) (by decide) (by decide) (by decide) (by decide)).2.1⟩

/-! Properties of the first-occurrence argmax and the top-K selection. -/

theorem argmaxFrom_lt (xs : List ℚ) (h : xs ≠ []) : argmaxFrom xs < xs.length := by
  induction xs with
  | nil => simp at h
  | cons x t ih =>
    by_cases ht : t = []
    · subst ht; simp [argmaxFrom]
    · simp only [argmaxFrom, if_neg ht]
      by_cases hx : x < t.getD (argmaxFrom t) 0
      · rw [if_pos hx]
        simpa using Nat.succ_lt_succ (ih ht)
      · rw [if_neg hx]
        simp

theorem argmaxFrom_le (xs : List ℚ) : ∀ i, i < xs.length → xs.getD i 0 ≤ xs.getD (argmaxFrom xs) 0 := by
  induction xs with
  | nil => intro i hi; simp at hi
  | cons x t ih =>
    intro i hi
    by_cases ht : t = []
    · subst ht
      have hz : i = 0 := by simpa using hi
      subst hz
      simp [argmaxFrom]
    · simp only [argmaxFrom, if_neg ht]
      by_cases hx : x < t.getD (argmaxFrom t) 0
      · rw [if_pos hx]
        cases i with
        | zero => simpa [List.getD_cons_succ, List.getD_cons_zero] using le_of_lt hx
        | succ j => simpa [List.getD_cons_succ] using ih j (by simpa using hi)
      · rw [if_neg hx]
        push_neg at hx
        cases i with
        | zero => simp
        | succ j =>
          simp only [List.getD_cons_succ, List.getD_cons_zero]
          exact le_trans (ih j (by simpa using hi)) hx

theorem argmaxFrom_first (xs : List ℚ) :
    ∀ i, i < argmaxFrom xs → xs.getD i 0 < xs.getD (argmaxFrom xs) 0 := by
  induction xs with
  | nil => intro i hi; simp [argmaxFrom] at hi
  | cons x t ih =>
    intro i hi
    by_cases ht : t = []
    · subst ht; simp [argmaxFrom] at hi
    · simp only [argmaxFrom, if_neg ht] at hi ⊢
      by_cases hx : x < t.getD (argmaxFrom t) 0
      · rw [if_pos hx]
        rw [if_pos hx] at hi
        cases i with
        | zero => simpa [List.getD_cons_zero, List.getD_cons_succ] using hx
        | succ j =>
          simp only [List.getD_cons_succ]
          exact ih j (by omega)
      · rw [if_neg hx] at hi
        omega

theorem getD_set_ne {α : Type} (l : List α) (i j : ℕ) (a d : α) (h : i ≠ j) :
    (l.set i a).getD j d = l.getD j d := by
  by_cases hj : j < l.length
  · rw [List.getD_eq_getElem _ _ (by rw [List.length_set]; exact hj),
      List.getElem_set_ne h, List.getD_eq_getElem _ _ hj]
  · rw [List.getD_eq_default, List.getD_eq_default]
    · omega
    · rw [List.length_set]; omega

theorem topkIdx_mem (k : ℕ) (xs : List ℚ) :
    ∀ m ∈ topkIdx k xs, m < xs.length ∧ 0 ≤ xs.getD m 0 := by
  induction k generalizing xs with
  | zero => intro m hm; simp [topkIdx] at hm
  | succ k ih =>
    intro m hm
    simp only [topkIdx] at hm
    by_cases hc : xs = [] ∨ xs.getD (argmaxFrom xs) 0 < 0
    · rw [if_pos hc] at hm; simp at hm
    · rw [if_neg hc] at hm
      push_neg at hc
      obtain ⟨hne, hnn⟩ := hc
      rcases List.mem_cons.mp hm with rfl | hm'
      · exact ⟨argmaxFrom_lt xs hne, hnn⟩
      · obtain ⟨hlt, hge⟩ := ih (xs.set (argmaxFrom xs) (-1)) m hm'
        rw [List.length_set] at hlt
        refine ⟨hlt, ?_⟩
        by_cases hme : argmaxFrom xs = m
        · subst hme; exact hnn
        · rwa [getD_set_ne xs _ m (-1) 0 hme] at hge

/-! Pointwise descriptions of the assigner's intermediate tensors. -/

theorem taaCandRow_length (d : TAAData) (g : ℕ) :
    (taaCandRow d g).length = d.anchors.length := by
  simp [taaCandRow]

theorem taaCandRow_getD (d : TAAData) (g : ℕ) {m : ℕ} (hm : m < d.anchors.length) :
    (taaCandRow d g).getD m 0
      = if insideBox (d.anchors.getD m (0, 0)) (d.gtBoxes.getD g zeroBox)
        then d.metric g m else -1 := by
  rw [taaCandRow, getD_range_map _ hm]

theorem taaOwnerCol_length (d : TAAData) (m : ℕ) :
    (taaOwnerCol d m).length = d.gtBoxes.length := by
  simp [taaOwnerCol]

theorem taaOwnerCol_getD (d : TAAData) (m : ℕ) {g : ℕ} (hg : g < d.gtBoxes.length) :
    (taaOwnerCol d m).getD g 0 = if taaMaskPos d g m then d.metric g m else -1 := by
  rw [taaOwnerCol, getD_range_map _ hg]

theorem taaFg_iff (d : TAAData) (m : ℕ) :
    taaFg d m = true ↔ ∃ g, g < d.gtBoxes.length ∧ taaMaskPos d g m = true := by
  simp [taaFg, List.any_eq_true, List.mem_range]

/-- Claim C8: in the Task-Aligned Assigner every anchor is assigned to at
most one ground truth: a background anchor's emitted target box is the zero
box, and a foreground anchor's emitted target box is exactly the box of its
single resolved owner — a ground truth whose top-K contains the anchor,
whose alignment metric for the anchor is maximal among all such ground
truths, with ties resolved to the lowest ground-truth index. -/
theorem claim_C8 (d : TAAData) (hnn : ∀ g m, 0 ≤ d.metric g m) (m : ℕ)
    (hm : m < d.anchors.length) :
    (taaFg d m = false → (taskAlignedAssigner d).gt_box.getD m zeroBox = zeroBox)
    ∧ (taaFg d m = true →
        taaOwner d m < d.gtBoxes.length
        ∧ taaMaskPos d (taaOwner d m) m = true
        ∧ (taskAlignedAssigner d).gt_box.getD m zeroBox
            = d.gtBoxes.getD (taaOwner d m) zeroBox
        ∧ ∀ g, g < d.gtBoxes.length → taaMaskPos d g m = true →
            d.metric g m ≤ d.metric (taaOwner d m) m
            ∧ (d.metric g m = d.metric (taaOwner d m) m → taaOwner d m ≤ g)) := by
  have hbox : (taskAlignedAssigner d).gt_box.getD m zeroBox = taaTargetBox d m := by
    rw [taskAlignedAssigner, getD_range_map _ hm]
  constructor
  · intro hf
    rw [hbox, taaTargetBox, hf]
    simp
  · intro hf
    obtain ⟨g₀, hg₀, hpos₀⟩ := (taaFg_iff d m).mp hf
    have hGpos : 0 < d.gtBoxes.length := by omega
    have hcne : taaOwnerCol d m ≠ [] := by
      intro hc
      have := taaOwnerCol_length d m
      rw [hc] at this
      simp at this
      omega
    have howner : taaOwner d m < d.gtBoxes.length := by
      have := argmaxFrom_lt (taaOwnerCol d m) hcne
      rwa [taaOwnerCol_length] at this
    have hg0val : (taaOwnerCol d m).getD g₀ 0 = d.metric g₀ m := by
      rw [taaOwnerCol_getD d m hg₀, if_pos hpos₀]
    have hmax : (taaOwnerCol d m).getD g₀ 0 ≤ (taaOwnerCol d m).getD (taaOwner d m) 0 :=
      argmaxFrom_le (taaOwnerCol d m) g₀ (by rw [taaOwnerCol_length]; exact hg₀)
    have hov_nonneg : 0 ≤ (taaOwnerCol d m).getD (taaOwner d m) 0 := by
      rw [hg0val] at hmax
      exact le_trans (hnn g₀ m) hmax
    have hpos_owner : taaMaskPos d (taaOwner d m) m = true := by
      by_contra hno
      have hno' : taaMaskPos d (taaOwner d m) m = false := by
        cases hh : taaMaskPos d (taaOwner d m) m
        · rfl
        · exact absurd hh hno
      have : (taaOwnerCol d m).getD (taaOwner d m) 0 = -1 := by
        rw [taaOwnerCol_getD d m howner, hno']
        simp
      rw [this] at hov_nonneg
      linarith
    have hov_val : (taaOwnerCol d m).getD (taaOwner d m) 0 = d.metric (taaOwner d m) m := by
      rw [taaOwnerCol_getD d m howner, if_pos hpos_owner]
    refine ⟨howner, hpos_owner, by rw [hbox, taaTargetBox, hf]; simp, ?_⟩
    intro g hg hposg
    have hgval : (taaOwnerCol d m).getD g 0 = d.metric g m := by
      rw [taaOwnerCol_getD d m hg, if_pos hposg]
    have hle : d.metric g m ≤ d.metric (taaOwner d m) m := by
      have := argmaxFrom_le (taaOwnerCol d m) g (by rw [taaOwnerCol_length]; exact hg)
      rw [show argmaxFrom (taaOwnerCol d m) = taaOwner d m from rfl] at this
      rwa [hgval, hov_val] at this
    refine ⟨hle, ?_⟩
    intro heq
    by_contra hlt
    push_neg at hlt
    have := argmaxFrom_first (taaOwnerCol d m) g hlt
    rw [show argmaxFrom (taaOwnerCol d m) = taaOwner d m from rfl] at this
    rw [hgval, hov_val] at this
    rw [heq] at this
    exact lt_irrefl _ this

def wTAA : TAAData :=
  { topk := 1
    num_classes := 2
    anchors := [(1, 1), (5, 5)]
    gtLabels := [0, 1]
    gtBoxes := [⟨0, 0, 2, 2⟩, ⟨0, 0, 3, 3⟩]
    metric := fun _ _ => 1
    iou := fun _ _ => 1 }

theorem claim_C8_witness :
    (∀ g m, 0 ≤ wTAA.metric g m)
    ∧ 0 < wTAA.anchors.length
    ∧ taaFg wTAA 0 = true
    ∧ (taskAlignedAssigner wTAA).gt_box.getD 0 zeroBox
        = wTAA.gtBoxes.getD (taaOwner wTAA 0) zeroBox :=
  ⟨fun _ _ => zero_le_one, by decide, by decide,
   ((claim_C8 wTAA (fun _ _ => zero_le_one) 0 (by decide)).2 (by decide)).2.2.1⟩

